import Mathlib

/-!
# Verification of the single-cell-survival match-simulation core

A shallow embedding of the game's simulation core: the hexagonal coordinate
system (`src/core/hexUtils.js`), the game-state container and its operations
(`GameState`), the tile-elimination scheduler (`src/game/TileFallManager.js`),
and the per-tick movement simulator (`src/game/InputHandler.js`).

Modelling conventions:
* JS numbers are modelled exactly: integer-valued quantities as `ℤ`/`ℕ`,
  continuous quantities (times, pixel coordinates, velocities) as `ℚ`, and
  pixel coordinates produced by the hex projection (which involve `√3`) as
  elements of the quadratic field `ℚ(√3)`, represented by the computable
  pair type `Q3` below.
* `performance.now()` is an explicit `now : ℚ` argument threaded through
  every operation that reads the clock.
* `Math.random()` draws are explicit `ℚ` arguments in `[0, 1)`.
* The canonical string key `"q,r"` of a hex position is modelled by the
  coordinate pair itself (`Key := ℤ × ℤ`); both are injective images of the
  coordinate pair, and `fromKey ∘ toKey = id` holds for either choice.
* JS `Map`s are association lists (`List (Key × Tile)`); mutating the `Tile`
  object found under a key is modelled by updating the entry at that key.
* Object identity of `Player`s (used by `alivePlayers.filter(p => p !== player)`)
  is modelled by the player's `index` field; `alivePlayers` holds indices.
* `setTimeout` timers are explicit records of their fire time kept in the
  very fields the source uses to store the timer handles, so cancelling a
  handle is removing the record.
* Presentation-only fields (jiggle, sink, wobble, shatter-piece velocities,
  eye tracking) are omitted; `Math.sqrt`/`atan2`/`cos`/`sin` occurring only
  in the momentum clamp and the squash-stretch visuals are abstracted as an
  explicit `MathOps` argument.
-/

namespace SingleCell

/-! ## Configuration constants (`src/core/config.js`) -/

def GRID_RADIUS : ℤ := 6

def HEX_SIZE : ℚ := 40

def TILE_FALL_INTERVAL : ℚ := 800

def TILE_WARNING_DURATION : ℚ := 600

def MIN_FALL_INTERVAL : ℚ := 300

def FALL_ACCELERATION : ℚ := 20

def PLAYER_SPEED : ℚ := 200

/-! ## Hex coordinates (`src/core/hexUtils.js`) -/

/-- Axial hex coordinate, `class HexPosition`. -/
structure HexPosition where
  q : ℤ
  r : ℤ
deriving DecidableEq, Repr

/-- Canonical map key; models the string `"q,r"` (injective in the pair). -/
abbrev Key := ℤ × ℤ

def HexPosition.toKey (p : HexPosition) : Key := (p.q, p.r)

def HexPosition.fromKey (k : Key) : HexPosition := ⟨k.1, k.2⟩

/-- `HexPosition.distance`: hex distance via cube coordinates. -/
def HexPosition.distance (a b : HexPosition) : ℤ :=
  let dq := a.q - b.q
  let dr := a.r - b.r
  let ds := (-a.q - a.r) - (-b.q - b.r)
  (|dq| + |dr| + |ds|) / 2

/-- The inclusive integer range `a, a+1, …, b` (the `for` loops of
`generateHexGrid`). -/
def intRange (a b : ℤ) : List ℤ :=
  (List.range (b + 1 - a).toNat).map (fun (i : ℕ) => a + (i : ℤ))

/-- `generateHexGrid(radius)`: all hex positions within the given radius,
`q` outer, `r` in the radius-dependent range `[max(-radius,-q-radius),
min(radius,-q+radius)]`. -/
def generateHexGrid (radius : ℤ) : List HexPosition :=
  (intRange (-radius) radius).flatMap (fun q =>
    (intRange (max (-radius) (-q - radius)) (min radius (-q + radius))).map
      (fun r => ⟨q, r⟩))

/-- `isWithinGrid(pos, radius)`: cube-component bounds check. -/
def isWithinGrid (pos : HexPosition) (radius : ℤ) : Bool :=
  let s := -pos.q - pos.r
  decide (|pos.q| ≤ radius) && decide (|pos.r| ≤ radius) && decide (|s| ≤ radius)

theorem mem_intRange {a b x : ℤ} : x ∈ intRange a b ↔ a ≤ x ∧ x ≤ b := by
  simp only [intRange, List.mem_map, List.mem_range]
  constructor
  · rintro ⟨i, hi, rfl⟩
    omega
  · rintro ⟨h1, h2⟩
    exact ⟨(x - a).toNat, by omega, by omega⟩

theorem nodup_intRange (a b : ℤ) : (intRange a b).Nodup := by
  rw [intRange]
  refine List.Nodup.map ?_ (List.nodup_range _)
  intro x y h
  simp only at h
  omega

theorem length_intRange (a b : ℤ) : (intRange a b).length = (b + 1 - a).toNat := by
  rw [intRange, List.length_map, List.length_range]

theorem mem_generateHexGrid {radius : ℤ} {p : HexPosition} :
    p ∈ generateHexGrid radius ↔
      |p.q| ≤ radius ∧ |p.r| ≤ radius ∧ |(-p.q - p.r)| ≤ radius := by
  obtain ⟨q, r⟩ := p
  simp only [generateHexGrid, List.mem_flatMap, List.mem_map, mem_intRange,
    HexPosition.mk.injEq, abs_le, max_le_iff, le_min_iff]
  constructor
  · rintro ⟨q', hq', r', hr', rfl, rfl⟩
    omega
  · rintro ⟨hq, hr, hs⟩
    refine ⟨q, ⟨?_, ?_⟩, r, ⟨⟨?_, ?_⟩, ?_, ?_⟩, rfl, rfl⟩ <;> omega

theorem mem_generateHexGrid_iff_isWithinGrid {radius : ℤ} {p : HexPosition} :
    p ∈ generateHexGrid radius ↔ isWithinGrid p radius = true := by
  simp only [mem_generateHexGrid, isWithinGrid, Bool.and_eq_true, decide_eq_true_eq]
  tauto

theorem nodup_generateHexGrid (radius : ℤ) : (generateHexGrid radius).Nodup := by
  rw [generateHexGrid, List.nodup_flatMap]
  constructor
  · intro q _
    refine List.Nodup.map ?_ (nodup_intRange _ _)
    intro r1 r2 h
    simpa using congrArg HexPosition.r h
  · refine List.Pairwise.imp ?_ (nodup_intRange (-radius) radius)
    intro a b hab p hpa hpb
    simp only [List.mem_map] at hpa hpb
    obtain ⟨r1, _, rfl⟩ := hpa
    obtain ⟨r2, _, h⟩ := hpb
    have hba : b = a := congrArg HexPosition.q h
    exact hab hba.symm

theorem sum_abs_Icc (n : ℕ) :
    (∑ q ∈ Finset.Icc (-(n : ℤ)) n, |q|) = n * (n + 1) := by
  induction n with
  | zero => simp
  | succ n ih =>
    have hset : Finset.Icc (-((n : ℤ) + 1)) ((n : ℤ) + 1) =
        insert (-((n : ℤ) + 1)) (insert ((n : ℤ) + 1) (Finset.Icc (-(n : ℤ)) n)) := by
      ext x
      simp only [Finset.mem_Icc, Finset.mem_insert]
      omega
    push_cast
    rw [hset, Finset.sum_insert (by simp only [Finset.mem_insert, Finset.mem_Icc]; omega),
      Finset.sum_insert (by simp only [Finset.mem_Icc]; omega), ih]
    have h1 : |(-((n : ℤ) + 1))| = (n : ℤ) + 1 := by
      rw [abs_neg, abs_of_nonneg (by positivity)]
    have h2 : |((n : ℤ) + 1)| = (n : ℤ) + 1 := abs_of_nonneg (by positivity)
    rw [h1, h2]
    ring

theorem length_generateHexGrid (radius : ℤ) (h : 0 ≤ radius) :
    ((generateHexGrid radius).length : ℤ) = 3 * radius ^ 2 + 3 * radius + 1 := by
  obtain ⟨n, rfl⟩ := Int.eq_ofNat_of_zero_le h
  set R : ℤ := (n : ℤ) with hR
  have hR0 : 0 ≤ R := by positivity
  have hfun : (List.length ∘ fun q =>
      (intRange (max (-R) (-q - R)) (min R (-q + R))).map
        (fun r => (⟨q, r⟩ : HexPosition))) =
      fun q => (min R (-q + R) + 1 - max (-R) (-q - R)).toNat := by
    funext q
    simp only [Function.comp_apply, List.length_map, length_intRange]
  have hlen : (generateHexGrid R).length =
      ((intRange (-R) R).map
        (fun q => (min R (-q + R) + 1 - max (-R) (-q - R)).toNat)).sum := by
    rw [generateHexGrid, List.length_flatMap, hfun]
  have htf : (intRange (-R) R).toFinset = Finset.Icc (-R) R := by
    ext x
    simp [mem_intRange]
  have hsum :
      ((intRange (-R) R).map
        (fun q => (min R (-q + R) + 1 - max (-R) (-q - R)).toNat)).sum =
      ∑ q ∈ Finset.Icc (-R) R, (min R (-q + R) + 1 - max (-R) (-q - R)).toNat := by
    rw [← htf, List.sum_toFinset _ (nodup_intRange _ _)]
  have hterm : ∀ q ∈ Finset.Icc (-R) R,
      (((min R (-q + R) + 1 - max (-R) (-q - R)).toNat : ℕ) : ℤ) = 2 * R + 1 - |q| := by
    intro q hq
    rw [Finset.mem_Icc] at hq
    rcases le_total 0 q with hq0 | hq0
    · rw [min_eq_right (by omega), max_eq_left (by omega), abs_of_nonneg hq0]
      omega
    · rw [min_eq_left (by omega), max_eq_right (by omega), abs_of_nonpos hq0]
      omega
  have hmain : ((generateHexGrid R).length : ℤ) =
      ∑ q ∈ Finset.Icc (-R) R, (2 * R + 1 - |q|) := by
    rw [hlen, hsum, Nat.cast_sum]
    exact Finset.sum_congr rfl hterm
  rw [hmain, Finset.sum_sub_distrib, Finset.sum_const, Int.card_Icc, hR, sum_abs_Icc,
    nsmul_eq_mul]
  have hcard : (((n : ℤ) + 1 - -(n : ℤ)).toNat : ℤ) = 2 * (n : ℤ) + 1 := by omega
  rw [hcard]
  ring

/-- **C3**: for every radius `r ≥ 0`, `generateHexGrid(r)` returns exactly
`3r² + 3r + 1` pairwise-distinct coordinates, and a coordinate is in the
returned list iff all three cube components are at most `r` in absolute
value — the same bound `isWithinGrid` tests. -/
theorem generateHexGrid_spec (radius : ℤ) (h : 0 ≤ radius) :
    ((generateHexGrid radius).length : ℤ) = 3 * radius ^ 2 + 3 * radius + 1 ∧
    (generateHexGrid radius).Nodup ∧
    (∀ q r' : ℤ, (⟨q, r'⟩ : HexPosition) ∈ generateHexGrid radius ↔
      (|q| ≤ radius ∧ |r'| ≤ radius ∧ |(-q - r')| ≤ radius)) ∧
    (∀ p : HexPosition, p ∈ generateHexGrid radius ↔ isWithinGrid p radius = true) := by
  refine ⟨length_generateHexGrid radius h, nodup_generateHexGrid radius, ?_, ?_⟩
  · intro q r'
    exact mem_generateHexGrid
  · intro p
    exact mem_generateHexGrid_iff_isWithinGrid

/-- Witness for C3 at radius 2. -/
theorem generateHexGrid_spec_witness :
    ((generateHexGrid 2).length : ℤ) = 3 * 2 ^ 2 + 3 * 2 + 1 ∧
    (generateHexGrid 2).Nodup ∧
    (∀ q r' : ℤ, (⟨q, r'⟩ : HexPosition) ∈ generateHexGrid 2 ↔
      (|q| ≤ 2 ∧ |r'| ≤ 2 ∧ |(-q - r')| ≤ 2)) ∧
    (∀ p : HexPosition, p ∈ generateHexGrid 2 ↔ isWithinGrid p 2 = true) :=
  generateHexGrid_spec 2 (by norm_num)

/-! ## Scheduler interval acceleration (`TileFallManager.accelerateFallRate`) -/

/-- One application of `accelerateFallRate` to the interval:
`max(MIN_FALL_INTERVAL, interval - FALL_ACCELERATION)`. -/
def accelerateInterval (i : ℚ) : ℚ :=
  max MIN_FALL_INTERVAL (i - FALL_ACCELERATION)

/-- The interval after `n` scheduler cycles, starting from `start()`'s reset
to `TILE_FALL_INTERVAL`. -/
def fallIntervalAfter (n : ℕ) : ℚ :=
  accelerateInterval^[n] TILE_FALL_INTERVAL

theorem fallIntervalAfter_closed (n : ℕ) :
    fallIntervalAfter n = max MIN_FALL_INTERVAL (TILE_FALL_INTERVAL - FALL_ACCELERATION * n) := by
  induction n with
  | zero =>
    simp only [fallIntervalAfter, Function.iterate_zero, id_eq, Nat.cast_zero, mul_zero,
      sub_zero]
    rw [max_eq_right]
    norm_num [TILE_FALL_INTERVAL, MIN_FALL_INTERVAL]
  | succ n ih =>
    rw [fallIntervalAfter, Function.iterate_succ_apply', ← fallIntervalAfter, ih,
      accelerateInterval]
    simp only [MIN_FALL_INTERVAL, TILE_FALL_INTERVAL, FALL_ACCELERATION] at *
    rcases le_total ((800 : ℚ) - 20 * n) 300 with hc | hc
    · rw [max_eq_left hc, max_eq_left (by linarith), max_eq_left (by push_cast; linarith)]
    · rw [max_eq_right hc]
      congr 1
      push_cast
      ring

/-- **C5**: the scheduler interval is non-increasing over successive cycles,
never drops below the floor, follows the recurrence
`interval ← max(MIN_FALL_INTERVAL, interval − FALL_ACCELERATION)` from the
base value, equals the floor after exactly 25 cycles (not after 24), and
stays at the floor ever after. -/
theorem fallInterval_spec :
    fallIntervalAfter 0 = TILE_FALL_INTERVAL ∧
    (∀ n, fallIntervalAfter (n + 1) = accelerateInterval (fallIntervalAfter n)) ∧
    (∀ n, fallIntervalAfter (n + 1) ≤ fallIntervalAfter n) ∧
    (∀ n, MIN_FALL_INTERVAL ≤ fallIntervalAfter n) ∧
    fallIntervalAfter 25 = MIN_FALL_INTERVAL ∧
    fallIntervalAfter 24 = 320 ∧
    (∀ n, 25 ≤ n → fallIntervalAfter n = MIN_FALL_INTERVAL) := by
  have hstep : ∀ n, fallIntervalAfter (n + 1) = accelerateInterval (fallIntervalAfter n) := by
    intro n
    rw [fallIntervalAfter, Function.iterate_succ_apply', ← fallIntervalAfter]
  refine ⟨rfl, hstep, ?_, ?_, ?_, ?_, ?_⟩
  · intro n
    rw [fallIntervalAfter_closed, fallIntervalAfter_closed]
    apply max_le_max le_rfl
    push_cast
    simp only [FALL_ACCELERATION]
    linarith
  · intro n
    rw [fallIntervalAfter_closed]
    exact le_max_left _ _
  · rw [fallIntervalAfter_closed]
    norm_num [MIN_FALL_INTERVAL, TILE_FALL_INTERVAL, FALL_ACCELERATION]
  · rw [fallIntervalAfter_closed]
    norm_num [MIN_FALL_INTERVAL, TILE_FALL_INTERVAL, FALL_ACCELERATION]
  · intro n hn
    rw [fallIntervalAfter_closed]
    apply max_eq_left
    simp only [MIN_FALL_INTERVAL, TILE_FALL_INTERVAL, FALL_ACCELERATION]
    have : (25 : ℚ) ≤ n := by exact_mod_cast hn
    linarith

/-- Witness for C5: the interval at cycle 30 is still the floor. -/
theorem fallInterval_spec_witness : fallIntervalAfter 30 = MIN_FALL_INTERVAL :=
  fallInterval_spec.2.2.2.2.2.2 30 (by norm_num)

/-! ## Exact pixel arithmetic: the field `ℚ(√3)`

`axialToPixel` multiplies by `√3`, so pixel coordinates live in `ℚ(√3)`.
`Q3` is the computable representation `a + b·√3` of such a number. -/

/-- The number `a + b·√3`. -/
structure Q3 where
  a : ℚ
  b : ℚ
deriving DecidableEq, Repr

namespace Q3

/-- A rational number viewed as an element of `ℚ(√3)`. -/
def ofRat (q : ℚ) : Q3 := ⟨q, 0⟩

/-- An integer viewed as an element of `ℚ(√3)`. -/
def ofInt (n : ℤ) : Q3 := ⟨(n : ℚ), 0⟩

/-- `Math.sqrt(3)`, exactly. -/
def sqrt3 : Q3 := ⟨0, 1⟩

instance : Add Q3 := ⟨fun v w => ⟨v.a + w.a, v.b + w.b⟩⟩

instance : Neg Q3 := ⟨fun v => ⟨-v.a, -v.b⟩⟩

instance : Sub Q3 := ⟨fun v w => ⟨v.a - w.a, v.b - w.b⟩⟩

instance : Mul Q3 := ⟨fun v w => ⟨v.a * w.a + 3 * v.b * w.b, v.a * w.b + v.b * w.a⟩⟩

/-- Multiplication by a rational scalar. -/
def smul (s : ℚ) (v : Q3) : Q3 := ⟨s * v.a, s * v.b⟩

/-- Division by a rational scalar (division by zero yields zero components,
as for Lean's rational division). -/
def sdiv (v : Q3) (s : ℚ) : Q3 := ⟨v.a / s, v.b / s⟩

/-- Decides `0 ≤ a + b·√3` by sign analysis and squaring (exact comparison
of the real number the source compares with floats). -/
def nonnegb (v : Q3) : Bool :=
  if 0 ≤ v.a then
    if 0 ≤ v.b then true else decide (3 * v.b ^ 2 ≤ v.a ^ 2)
  else
    if 0 ≤ v.b then decide (v.a ^ 2 ≤ 3 * v.b ^ 2) else false

/-- `v ≤ w` on `ℚ(√3)`. -/
def leb (v w : Q3) : Bool := nonnegb (w - v)

/-- `v < w` on `ℚ(√3)`. -/
def ltb (v w : Q3) : Bool := !(leb w v)

/-- `Math.abs`. -/
def abs (v : Q3) : Q3 := if nonnegb v then v else -v

/-- `⌊√x⌋` for a nonnegative rational `x`: `√(p/q) = √(p·q)/q`, and
`⌊⌊√(p·q)⌋ / q⌋` equals `⌊√(p·q)/q⌋`. -/
def ratSqrtFloor (x : ℚ) : ℤ :=
  ((Nat.sqrt (x.num.toNat * x.den) / x.den : ℕ) : ℤ)

/-- `⌊b·√3⌋`; for `b < 0` it uses that `b·√3` is irrational (`b ≠ 0`). -/
def sqrt3MulFloor (b : ℚ) : ℤ :=
  if 0 ≤ b then ratSqrtFloor (3 * b ^ 2) else -ratSqrtFloor (3 * b ^ 2) - 1

/-- Decides `b·√3 ≥ c`. -/
def sqrt3MulGE (b c : ℚ) : Bool :=
  if 0 ≤ b then decide (c ≤ 0) || decide (c ^ 2 ≤ 3 * b ^ 2)
  else decide (c ≤ 0) && decide (3 * b ^ 2 ≤ c ^ 2)

/-- `⌊a + b·√3⌋`, computably: split off `⌊a⌋`, take `m = ⌊b·√3⌋`, and add
one more when the fractional parts overflow. -/
def floor (v : Q3) : ℤ :=
  if v.b = 0 then ⌊v.a⌋
  else
    let f := ⌊v.a⌋
    let m := sqrt3MulFloor v.b
    f + m + (if sqrt3MulGE v.b ((m : ℚ) + 1 - (v.a - (f : ℚ))) then 1 else 0)

/-- JS `Math.round`: round half toward `+∞`, i.e. `⌊x + 1/2⌋`. -/
def round (v : Q3) : ℤ := floor (v + ofRat (1 / 2))

@[simp] theorem a_add (v w : Q3) : (v + w).a = v.a + w.a := rfl

@[simp] theorem b_add (v w : Q3) : (v + w).b = v.b + w.b := rfl

@[simp] theorem a_neg (v : Q3) : (-v).a = -v.a := rfl

@[simp] theorem b_neg (v : Q3) : (-v).b = -v.b := rfl

@[simp] theorem a_sub (v w : Q3) : (v - w).a = v.a - w.a := rfl

@[simp] theorem b_sub (v w : Q3) : (v - w).b = v.b - w.b := rfl

@[simp] theorem a_mul (v w : Q3) : (v * w).a = v.a * w.a + 3 * v.b * w.b := rfl

@[simp] theorem b_mul (v w : Q3) : (v * w).b = v.a * w.b + v.b * w.a := rfl

@[simp] theorem a_smul (s : ℚ) (v : Q3) : (smul s v).a = s * v.a := rfl

@[simp] theorem b_smul (s : ℚ) (v : Q3) : (smul s v).b = s * v.b := rfl

@[simp] theorem a_sdiv (v : Q3) (s : ℚ) : (sdiv v s).a = v.a / s := rfl

@[simp] theorem b_sdiv (v : Q3) (s : ℚ) : (sdiv v s).b = v.b / s := rfl

@[simp] theorem a_ofRat (q : ℚ) : (ofRat q).a = q := rfl

@[simp] theorem b_ofRat (q : ℚ) : (ofRat q).b = 0 := rfl

@[simp] theorem a_ofInt (n : ℤ) : (ofInt n).a = (n : ℚ) := rfl

@[simp] theorem b_ofInt (n : ℤ) : (ofInt n).b = 0 := rfl

@[simp] theorem a_sqrt3 : sqrt3.a = 0 := rfl

@[simp] theorem b_sqrt3 : sqrt3.b = 1 := rfl

theorem ext_ab {v w : Q3} (ha : v.a = w.a) (hb : v.b = w.b) : v = w := by
  cases v
  cases w
  simp_all

/-- Rounding a rational-valued element with integer value `n` gives `n`. -/
theorem round_intCast (n : ℤ) : round ⟨(n : ℚ), 0⟩ = n := by
  have hb : ((⟨(n : ℚ), 0⟩ : Q3) + ofRat (1 / 2)).b = 0 := by simp
  rw [round, floor, if_pos hb]
  have ha : ((⟨(n : ℚ), 0⟩ : Q3) + ofRat (1 / 2)).a = (n : ℚ) + 1 / 2 := by simp
  rw [ha]
  rw [show (n : ℚ) + 1 / 2 = (n : ℚ) + (1 / 2 : ℚ) from rfl, Int.floor_int_add]
  norm_num

end Q3

/-! ## Pixel projection (`src/core/hexUtils.js`) -/

/-- `axialToPixel(pos, hexRadius, centerX, centerY)`: pointy-top projection.
The exact value of the float pair the source returns. -/
def axialToPixel (pos : HexPosition) (hexRadius centerX centerY : ℚ) : Q3 × Q3 :=
  (Q3.ofRat hexRadius *
      (Q3.sqrt3 * Q3.ofInt pos.q + Q3.sdiv Q3.sqrt3 2 * Q3.ofInt pos.r) +
    Q3.ofRat centerX,
   Q3.ofRat hexRadius * (Q3.ofRat (3 / 2) * Q3.ofInt pos.r) + Q3.ofRat centerY)

/-- `hexRound(q, r)`: round each cube component, then correct the component
with the largest rounding error from the other two. -/
def hexRound (q r : Q3) : HexPosition :=
  let s := -q - r
  let rq := Q3.round q
  let rr := Q3.round r
  let rs := Q3.round s
  let qDiff := Q3.abs (Q3.ofInt rq - q)
  let rDiff := Q3.abs (Q3.ofInt rr - r)
  let sDiff := Q3.abs (Q3.ofInt rs - s)
  if Q3.ltb rDiff qDiff && Q3.ltb sDiff qDiff then ⟨-rr - rs, rr⟩
  else if Q3.ltb sDiff rDiff then ⟨rq, -rq - rs⟩
  else ⟨rq, rr⟩

/-- `pixelToAxial(x, y, hexRadius, centerX, centerY)`: inverse projection
followed by cube rounding. -/
def pixelToAxial (x y : Q3) (hexRadius centerX centerY : ℚ) : HexPosition :=
  let relX := x - Q3.ofRat centerX
  let relY := y - Q3.ofRat centerY
  let q := Q3.sdiv (Q3.sdiv Q3.sqrt3 3 * relX - Q3.smul (1 / 3) relY) hexRadius
  let r := Q3.sdiv (Q3.smul (2 / 3) relY) hexRadius
  hexRound q r

theorem hexRound_ofInt (q r : ℤ) : hexRound (Q3.ofInt q) (Q3.ofInt r) = ⟨q, r⟩ := by
  have hs : -Q3.ofInt q - Q3.ofInt r = Q3.ofInt (-q - r) := by
    apply Q3.ext_ab <;> simp
  rw [hexRound, hs]
  have hrq : Q3.round (Q3.ofInt q) = q := Q3.round_intCast q
  have hrr : Q3.round (Q3.ofInt r) = r := Q3.round_intCast r
  have hrs : Q3.round (Q3.ofInt (-q - r)) = -q - r := Q3.round_intCast (-q - r)
  simp only [hrq, hrr, hrs]
  have hdq : Q3.ofInt q - Q3.ofInt q = ⟨0, 0⟩ := by apply Q3.ext_ab <;> simp
  have hdr : Q3.ofInt r - Q3.ofInt r = ⟨0, 0⟩ := by apply Q3.ext_ab <;> simp
  have hds : Q3.ofInt (-q - r) - Q3.ofInt (-q - r) = ⟨0, 0⟩ := by
    apply Q3.ext_ab <;> simp
  rw [hdq, hdr, hds]
  have habs : Q3.abs ⟨0, 0⟩ = ⟨0, 0⟩ := by simp [Q3.abs, Q3.nonnegb]
  have hlt : Q3.ltb ⟨0, 0⟩ ⟨0, 0⟩ = false := by
    simp [Q3.ltb, Q3.leb, Q3.nonnegb]
  rw [habs, hlt]
  simp

/-- The inverse projection of a hex center, before rounding, is exactly the
hex's own coordinates. -/
theorem pixelToAxial_axialToPixel (p : HexPosition) (size cx cy : ℚ) (hs : size ≠ 0) :
    pixelToAxial (axialToPixel p size cx cy).1 (axialToPixel p size cx cy).2
      size cx cy = p := by
  obtain ⟨q, r⟩ := p
  rw [pixelToAxial]
  have hq : Q3.sdiv
      (Q3.sdiv Q3.sqrt3 3 * ((axialToPixel ⟨q, r⟩ size cx cy).1 - Q3.ofRat cx) -
        Q3.smul (1 / 3) ((axialToPixel ⟨q, r⟩ size cx cy).2 - Q3.ofRat cy)) size =
      Q3.ofInt q := by
    apply Q3.ext_ab <;> simp [axialToPixel] <;> field_simp <;> ring
  have hr : Q3.sdiv
      (Q3.smul (2 / 3) ((axialToPixel ⟨q, r⟩ size cx cy).2 - Q3.ofRat cy)) size =
      Q3.ofInt r := by
    apply Q3.ext_ab <;> simp [axialToPixel] <;> field_simp <;> ring
  rw [hq, hr, hexRound_ofInt]

/-- **C4**: for every coordinate produced by `generateHexGrid`, any hex size
`> 0` and any center offset, `pixelToAxial ∘ axialToPixel` reproduces the
coordinate exactly; equivalently, `hexRound` applied to the exact inverse
projection of a hex center returns that hex. -/
theorem pixel_roundtrip_spec (radius : ℤ) (p : HexPosition)
    (_hp : p ∈ generateHexGrid radius) (size cx cy : ℚ) (hsize : 0 < size) :
    pixelToAxial (axialToPixel p size cx cy).1 (axialToPixel p size cx cy).2
      size cx cy = p :=
  pixelToAxial_axialToPixel p size cx cy (ne_of_gt hsize)

/-- Witness for C4 at `p = (1, -2)` on the radius-2 grid, size 40,
center (350, 1/3). -/
theorem pixel_roundtrip_spec_witness :
    pixelToAxial (axialToPixel ⟨1, -2⟩ 40 350 (1 / 3)).1
      (axialToPixel ⟨1, -2⟩ 40 350 (1 / 3)).2 40 350 (1 / 3) = ⟨1, -2⟩ :=
  pixel_roundtrip_spec 2 ⟨1, -2⟩ (by decide) 40 350 (1 / 3) (by norm_num)

/-! ## Actors (`src/actors/Tile.js`, `src/actors/Player.js`) -/

/-- Board tile. Presentation-only fields (jiggle, sink, shatter pieces) are
omitted; every gameplay-relevant field of the source constructor appears,
with its initial value in `Tile.new`. -/
structure Tile where
  isActive : Bool
  warningStartTime : Option ℚ
  isSpawning : Bool
  spawnStartTime : ℚ
  spawnDelay : ℚ
  spawnDuration : ℚ
  isShattering : Bool
  shatterStartTime : ℚ
  shatterDuration : ℚ
deriving DecidableEq, Repr

namespace Tile

/-- The `Tile` constructor. -/
def new : Tile where
  isActive := true
  warningStartTime := none
  isSpawning := true
  spawnStartTime := 0
  spawnDelay := 0
  spawnDuration := 800
  isShattering := false
  shatterStartTime := 0
  shatterDuration := 400

/-- `get isWarning()`: `warningStartTime !== null`. -/
def isWarning (t : Tile) : Bool := t.warningStartTime.isSome

/-- `startWarning()`. -/
def startWarning (t : Tile) (now : ℚ) : Tile :=
  { t with warningStartTime := some now }

/-- `startShatter()` (the shatter-piece construction is render-only and
omitted). Note it does not touch `isActive`. -/
def startShatter (t : Tile) (now : ℚ) : Tile :=
  { t with isShattering := true, shatterStartTime := now, warningStartTime := none }

/-- `fall()`. -/
def fall (t : Tile) : Tile :=
  { t with isActive := false, isShattering := false, warningStartTime := none }

/-- `getShatterProgress()`: returns the progress together with the (possibly
fallen) tile, because the source mutates the tile once progress reaches 1. -/
def getShatterProgress (t : Tile) (now : ℚ) : Tile × ℚ :=
  if !t.isShattering then (t, 0)
  else
    let progress := min ((now - t.shatterStartTime) / t.shatterDuration) 1
    if 1 ≤ progress then (t.fall, progress) else (t, progress)

end Tile

/-- Player key bindings (`config.keys`). -/
structure PlayerKeys where
  up : String
  down : String
  left : String
  right : String
deriving DecidableEq, Repr

/-- Player entity. Wobble/eye fields are presentation-only and omitted;
`scaleX`/`scaleY` are kept because `updatePlayerMovement` writes them. -/
structure Player where
  index : ℕ
  keys : PlayerKeys
  x : Q3
  y : Q3
  vx : ℚ
  vy : ℚ
  scaleX : ℚ
  scaleY : ℚ
  isFalling : Bool
  fallStartTime : ℚ
  fallDuration : ℚ
  isSpawning : Bool
  spawnStartTime : ℚ
  spawnDuration : ℚ
  isAlive : Bool
  survivalTime : ℚ
deriving DecidableEq, Repr

namespace Player

/-- The `Player` constructor. -/
def new (index : ℕ) (keys : PlayerKeys) (startX startY : Q3) : Player where
  index := index
  keys := keys
  x := startX
  y := startY
  vx := 0
  vy := 0
  scaleX := 1
  scaleY := 1
  isFalling := false
  fallStartTime := 0
  fallDuration := 800
  isSpawning := true
  spawnStartTime := 0
  spawnDuration := 500
  isAlive := true
  survivalTime := 0

/-- `startFalling()`. -/
def startFalling (p : Player) (now : ℚ) : Player :=
  { p with isFalling := true, fallStartTime := now }

end Player

/-- `MatchPhase` enumeration (`src/core/config.js`). -/
inductive MatchPhase where
  | WaitingToStart
  | Spawning
  | InProgress
  | GameOver
deriving DecidableEq, Repr

/-- Notifications emitted through the event emitter. Player payloads are the
player's index (the model of the object reference). -/
inductive GameEvent where
  | tileWarning (posKey : Key)
  | tileFallen (posKey : Key)
  | playerEliminated (index : ℕ)
  | gameOver (winner : Option ℕ)
deriving DecidableEq, Repr

/-! ## GameState (`src/game/GameState.js`) -/

/-- The central game state. `alivePlayers` holds the indices of the player
objects the source's array holds by reference. -/
structure GameState where
  board : List (Key × Tile)
  players : List Player
  alivePlayers : List ℕ
  matchPhase : MatchPhase
  gameStartTime : ℚ
  centerX : ℚ
  centerY : ℚ
deriving DecidableEq, Repr

/-- `Map.get(key)` on an association list. -/
def mapGet {β : Type} (k : Key) : List (Key × β) → Option β
  | [] => none
  | kt :: rest => if kt.1 = k then some kt.2 else mapGet k rest

namespace GameState

/-- Mutating the `Tile` object held under `posKey` in the JS `Map`: update
the entry at that key. -/
def updateBoard (board : List (Key × Tile)) (posKey : Key) (f : Tile → Tile) :
    List (Key × Tile) :=
  board.map (fun kt => if kt.1 = posKey then (kt.1, f kt.2) else kt)

/-- `isTileActive(x, y)`: `tile && tile.isActive`. -/
def isTileActive (gs : GameState) (x y : Q3) : Bool :=
  let hexPos := pixelToAxial x y HEX_SIZE gs.centerX gs.centerY
  match mapGet hexPos.toKey gs.board with
  | some tile => tile.isActive
  | none => false

/-- `markTileWarning(posKey)`: transition an active tile to warning and emit
`tileWarning`; silently do nothing if the tile is missing or inactive. -/
def markTileWarning (gs : GameState) (posKey : Key) (now : ℚ) :
    GameState × List GameEvent :=
  match mapGet posKey gs.board with
  | some tile =>
    if tile.isActive then
      ({ gs with board := updateBoard gs.board posKey (fun t => t.startWarning now) },
        [GameEvent.tileWarning posKey])
    else (gs, [])
  | none => (gs, [])

/-- `removeTile(posKey)`: the source checks only that the tile exists — not
that it is still active — before shattering it and emitting `tileFallen`. -/
def removeTile (gs : GameState) (posKey : Key) (now : ℚ) :
    GameState × List GameEvent :=
  match mapGet posKey gs.board with
  | some _ =>
    ({ gs with board := updateBoard gs.board posKey (fun t => t.startShatter now) },
      [GameEvent.tileFallen posKey])
  | none => (gs, [])

/-- The `player.fallDuration` read by `eliminatePlayer` when scheduling the
delayed game-over check (800 for every constructed player). -/
def playerFallDuration (gs : GameState) (index : ℕ) : ℚ :=
  ((gs.players.find? (fun p => p.index == index)).map Player.fallDuration).getD 800

/-- `eliminatePlayer(player)`: mark dead, record survival time, filter the
alive roster by object identity, emit `playerEliminated`, and — when the
alive count has dropped to ≤ 1 — schedule the delayed game-over check
(returned as the `setTimeout` fire time). The source has no guard against
an already-eliminated player. -/
def eliminatePlayer (gs : GameState) (index : ℕ) (now : ℚ) :
    GameState × List GameEvent × Option ℚ :=
  let players' := gs.players.map (fun p =>
    if p.index = index then
      { p with isAlive := false, survivalTime := now - gs.gameStartTime }
    else p)
  let alive' := gs.alivePlayers.filter (fun i => i != index)
  let gs' := { gs with players := players', alivePlayers := alive' }
  if alive'.length ≤ 1 then
    (gs', [GameEvent.playerEliminated index],
      some (now + gs.playerFallDuration index))
  else
    (gs', [GameEvent.playerEliminated index], none)

/-- The body of the `setTimeout` scheduled by `eliminatePlayer`: at fire
time, re-check that the match is still at its end and still in progress
before declaring game over. -/
def fireGameOverCheck (gs : GameState) : GameState × List GameEvent :=
  if gs.alivePlayers.length ≤ 1 ∧ gs.matchPhase = MatchPhase.InProgress then
    ({ gs with matchPhase := MatchPhase.GameOver },
      [GameEvent.gameOver gs.alivePlayers.head?])
  else (gs, [])

/-- `checkPlayersOnTile(posKey)`: the alive players whose projected hex key
equals `posKey` (as indices). -/
def checkPlayersOnTile (gs : GameState) (posKey : Key) : List ℕ :=
  match mapGet posKey gs.board with
  | none => []
  | some _ =>
    gs.alivePlayers.filter (fun i =>
      match gs.players.find? (fun p => p.index == i) with
      | some p =>
        (pixelToAxial p.x p.y HEX_SIZE gs.centerX gs.centerY).toKey == posKey
      | none => false)

/-- `reset()`: full state wipe (canvas center is not cleared). -/
def reset (gs : GameState) : GameState :=
  { gs with
    board := [], players := [], alivePlayers := [],
    matchPhase := MatchPhase.WaitingToStart, gameStartTime := 0 }

theorem mapGet_updateBoard (board : List (Key × Tile)) (posKey : Key)
    (f : Tile → Tile) :
    mapGet posKey (updateBoard board posKey f) = (mapGet posKey board).map f := by
  induction board with
  | nil => rfl
  | cons kt rest ih =>
    simp only [updateBoard] at ih
    by_cases h : kt.1 = posKey
    · simp [updateBoard, mapGet, h]
    · simp only [updateBoard, List.map_cons, if_neg h, mapGet, ih]

theorem mapGet_updateBoard_ne (board : List (Key × Tile)) (posKey k : Key)
    (f : Tile → Tile) (h : k ≠ posKey) :
    mapGet k (updateBoard board posKey f) = mapGet k board := by
  induction board with
  | nil => rfl
  | cons kt rest ih =>
    simp only [updateBoard] at ih
    by_cases hk : kt.1 = posKey
    · have hk2 : kt.1 ≠ k := by rw [hk]; exact fun he => h he.symm
      simp only [updateBoard, List.map_cons, if_pos hk, mapGet, if_neg hk2, ih]
    · by_cases hke : kt.1 = k
      · simp only [updateBoard, List.map_cons, if_neg hk, mapGet, if_pos hke]
      · simp only [updateBoard, List.map_cons, if_neg hk, mapGet, if_neg hke, ih]

end GameState

/-! ## Claims about GameState operations -/

/-- WASD bindings of player 1 (`PlayerConfig`). -/
def keysWASD : PlayerKeys := ⟨"KeyW", "KeyS", "KeyA", "KeyD"⟩

/-- A one-tile board whose only tile has already fallen (inactive). -/
def inactiveTileState : GameState where
  board := [((0, 0), { Tile.new with isActive := false })]
  players := []
  alivePlayers := []
  matchPhase := MatchPhase.InProgress
  gameStartTime := 0
  centerX := 0
  centerY := 0

/-- Counterexample to C9 as stated: `removeTile` on a present but
already-inactive tile is not a no-op — it still starts the shatter sequence
and still emits `tileFallen`, because the source checks only `if (tile)`. -/
theorem removeTile_inactive_counterexample :
    (inactiveTileState.removeTile (0, 0) 5).2 = [GameEvent.tileFallen (0, 0)] ∧
    (inactiveTileState.removeTile (0, 0) 5).1.board =
      [((0, 0), { Tile.new with
        isActive := false, isShattering := true, shatterStartTime := 5 })] := by
  constructor <;> rfl

/-- **C9 (amended)**: `markTileWarning` on a missing or inactive tile changes
no state and emits nothing, and on an active tile marks it warning and emits
`tileWarning`; `removeTile` is a silent no-op only for a missing key — on any
present tile, active or not, it starts the shatter sequence and emits
`tileFallen`. -/
theorem tileOps_spec (gs : GameState) (posKey : Key) (now : ℚ) :
    (mapGet posKey gs.board = none →
      gs.markTileWarning posKey now = (gs, []) ∧
      gs.removeTile posKey now = (gs, [])) ∧
    (∀ t, mapGet posKey gs.board = some t → t.isActive = false →
      gs.markTileWarning posKey now = (gs, [])) ∧
    (∀ t, mapGet posKey gs.board = some t → t.isActive = true →
      gs.markTileWarning posKey now =
        ({ gs with
            board := GameState.updateBoard gs.board posKey
              (fun u => u.startWarning now) },
          [GameEvent.tileWarning posKey]) ∧
      mapGet posKey (gs.markTileWarning posKey now).1.board =
        some (t.startWarning now)) ∧
    (∀ t, mapGet posKey gs.board = some t →
      gs.removeTile posKey now =
        ({ gs with
            board := GameState.updateBoard gs.board posKey
              (fun u => u.startShatter now) },
          [GameEvent.tileFallen posKey]) ∧
      mapGet posKey (gs.removeTile posKey now).1.board =
        some (t.startShatter now)) := by
  refine ⟨?_, ?_, ?_, ?_⟩
  · intro h
    constructor
    · simp only [GameState.markTileWarning, h]
    · simp only [GameState.removeTile, h]
  · intro t ht hact
    simp [GameState.markTileWarning, ht, hact]
  · intro t ht hact
    refine ⟨by simp [GameState.markTileWarning, ht, hact], ?_⟩
    simp [GameState.markTileWarning, ht, hact, GameState.mapGet_updateBoard]
  · intro t ht
    refine ⟨by simp [GameState.removeTile, ht], ?_⟩
    simp [GameState.removeTile, ht, GameState.mapGet_updateBoard]

/-- A one-tile board whose only tile is active and idle. -/
def activeTileState : GameState where
  board := [((1, 2), Tile.new)]
  players := []
  alivePlayers := []
  matchPhase := MatchPhase.InProgress
  gameStartTime := 0
  centerX := 0
  centerY := 0

/-- Witness for C9: marking the active tile of a concrete board. -/
theorem tileOps_spec_witness :
    activeTileState.markTileWarning (1, 2) 3 =
      ({ activeTileState with
          board := GameState.updateBoard activeTileState.board
            (1, 2) (fun u => u.startWarning 3) },
        [GameEvent.tileWarning (1, 2)]) ∧
    mapGet (1, 2) (activeTileState.markTileWarning (1, 2) 3).1.board =
      some (Tile.new.startWarning 3) :=
  (tileOps_spec activeTileState (1, 2) 3).2.2.1 Tile.new rfl rfl

/-- A one-player match, the player still alive. -/
def aliveOnePlayerState : GameState where
  board := []
  players := [Player.new 0 keysWASD ⟨0, 0⟩ ⟨0, 0⟩]
  alivePlayers := [0]
  matchPhase := MatchPhase.InProgress
  gameStartTime := 0
  centerX := 0
  centerY := 0

/-- The state after the first `eliminatePlayer` call, at time 100. -/
def afterFirstElimination : GameState :=
  (aliveOnePlayerState.eliminatePlayer 0 100).1

/-- Counterexample to C1 as stated: the player is already eliminated after
the first call, yet the second call emits a second `playerEliminated`
notification, overwrites `survivalTime` with the later timestamp, and
schedules another delayed game-over check. -/
theorem eliminatePlayer_not_idempotent_counterexample :
    afterFirstElimination.players.map Player.isAlive = [false] ∧
    afterFirstElimination.players.map Player.survivalTime = [100] ∧
    (afterFirstElimination.eliminatePlayer 0 200).2.1 =
      [GameEvent.playerEliminated 0] ∧
    (afterFirstElimination.eliminatePlayer 0 200).2.2 = some 1000 ∧
    (afterFirstElimination.eliminatePlayer 0 200).1.players.map
      Player.survivalTime = [200] := by
  refine ⟨?_, ?_, ?_, ?_, ?_⟩ <;>
    norm_num [afterFirstElimination, aliveOnePlayerState, GameState.eliminatePlayer,
      GameState.playerFallDuration, Player.new, keysWASD, List.find?]

/-- **C1 (amended)**: calling `eliminatePlayer` on an already-eliminated
player leaves the alive roster, every `isAlive` flag, the match phase and
the board unchanged, but it emits a second `playerEliminated` notification,
overwrites the player's `survivalTime` with the new elapsed time, and — the
alive count being ≤ 1 — schedules another delayed game-over check. -/
theorem eliminatePlayer_dead_spec (gs : GameState) (index : ℕ) (now : ℚ)
    (hNot : index ∉ gs.alivePlayers)
    (hDead : ∀ p ∈ gs.players, p.index = index → p.isAlive = false) :
    (gs.eliminatePlayer index now).1.alivePlayers = gs.alivePlayers ∧
    (gs.eliminatePlayer index now).1.matchPhase = gs.matchPhase ∧
    (gs.eliminatePlayer index now).1.board = gs.board ∧
    (gs.eliminatePlayer index now).1.players.map Player.isAlive =
      gs.players.map Player.isAlive ∧
    (gs.eliminatePlayer index now).2.1 = [GameEvent.playerEliminated index] ∧
    ((gs.eliminatePlayer index now).2.2 =
      if gs.alivePlayers.length ≤ 1 then some (now + gs.playerFallDuration index)
      else none) ∧
    (gs.eliminatePlayer index now).1.players =
      gs.players.map (fun p => if p.index = index then
        { p with isAlive := false, survivalTime := now - gs.gameStartTime }
      else p) := by
  have hfilter : gs.alivePlayers.filter (fun i => i != index) = gs.alivePlayers := by
    apply List.filter_eq_self.mpr
    intro a ha
    simp only [bne_iff_ne, ne_eq, decide_eq_true_eq]
    exact fun he => hNot (he ▸ ha)
  have key : gs.eliminatePlayer index now =
      ({ gs with
          players := gs.players.map (fun p => if p.index = index then
            { p with isAlive := false, survivalTime := now - gs.gameStartTime }
          else p),
          alivePlayers := gs.alivePlayers },
        [GameEvent.playerEliminated index],
        if gs.alivePlayers.length ≤ 1 then some (now + gs.playerFallDuration index)
        else none) := by
    rw [GameState.eliminatePlayer]
    simp only [hfilter]
    by_cases hc : gs.alivePlayers.length ≤ 1 <;> simp [hc]
  have hAliveMap : (gs.players.map (fun p => if p.index = index then
      { p with isAlive := false, survivalTime := now - gs.gameStartTime }
      else p)).map Player.isAlive = gs.players.map Player.isAlive := by
    rw [List.map_map]
    apply List.map_congr_left
    intro p hp
    by_cases hpi : p.index = index
    · simp only [Function.comp_apply, if_pos hpi]
      exact (hDead p hp hpi).symm
    · simp only [Function.comp_apply, if_neg hpi]
  rw [key]
  exact ⟨rfl, rfl, rfl, hAliveMap, rfl, rfl, rfl⟩

/-- Witness for C1 at a concrete already-eliminated player. -/
theorem eliminatePlayer_dead_spec_witness :
    (afterFirstElimination.eliminatePlayer 0 7).2.1 =
      [GameEvent.playerEliminated 0] :=
  (eliminatePlayer_dead_spec afterFirstElimination 0 7 (by decide)
    (by decide)).2.2.2.2.1

/-- **C8**: the delayed game-over check fires iff, at fire time, the alive
count is still ≤ 1 and the phase is still `InProgress`; it then sets the
phase to `GameOver` and emits `gameOver` whose payload is the single
remaining alive player (or none for a draw); after a `reset()` the check is
a no-op and the phase does not become `GameOver`. -/
theorem gameOverCheck_spec (gs : GameState) :
    (gs.alivePlayers.length ≤ 1 ∧ gs.matchPhase = MatchPhase.InProgress →
      gs.fireGameOverCheck =
        ({ gs with matchPhase := MatchPhase.GameOver },
          [GameEvent.gameOver gs.alivePlayers.head?])) ∧
    (¬(gs.alivePlayers.length ≤ 1 ∧ gs.matchPhase = MatchPhase.InProgress) →
      gs.fireGameOverCheck = (gs, [])) ∧
    (gs.fireGameOverCheck.2 ≠ [] ↔
      gs.alivePlayers.length ≤ 1 ∧ gs.matchPhase = MatchPhase.InProgress) ∧
    (∀ w, gs.alivePlayers = [w] → gs.matchPhase = MatchPhase.InProgress →
      gs.fireGameOverCheck.2 = [GameEvent.gameOver (some w)]) ∧
    (gs.alivePlayers = [] → gs.matchPhase = MatchPhase.InProgress →
      gs.fireGameOverCheck.2 = [GameEvent.gameOver none]) ∧
    gs.reset.fireGameOverCheck = (gs.reset, []) ∧
    gs.reset.fireGameOverCheck.1.matchPhase ≠ MatchPhase.GameOver := by
  refine ⟨?_, ?_, ?_, ?_, ?_, ?_, ?_⟩
  · intro hc
    simp [GameState.fireGameOverCheck, hc]
  · intro hc
    simp [GameState.fireGameOverCheck, hc]
  · by_cases hc : gs.alivePlayers.length ≤ 1 ∧ gs.matchPhase = MatchPhase.InProgress <;>
      simp [GameState.fireGameOverCheck, hc]
  · intro w hw hph
    simp [GameState.fireGameOverCheck, hw, hph]
  · intro hw hph
    simp [GameState.fireGameOverCheck, hw, hph]
  · simp [GameState.fireGameOverCheck, GameState.reset]
  · simp [GameState.fireGameOverCheck, GameState.reset]

/-- A two-player match with one player left alive. -/
def oneAliveState : GameState where
  board := []
  players := []
  alivePlayers := [5]
  matchPhase := MatchPhase.InProgress
  gameStartTime := 0
  centerX := 0
  centerY := 0

/-- Witness for C8: on a concrete one-alive state the check reports the
survivor as winner. -/
theorem gameOverCheck_spec_witness :
    oneAliveState.fireGameOverCheck.2 = [GameEvent.gameOver (some 5)] :=
  (gameOverCheck_spec oneAliveState).2.2.2.1 5 rfl rfl

/-! ## Movement simulation (`src/game/InputHandler.js`) -/

/-- The transcendental `Math` functions the movement code uses only for the
speed clamp and the squash-stretch visuals, abstracted (the claims hold for
every implementation). -/
structure MathOps where
  sqrt : ℚ → ℚ
  atan2 : ℚ → ℚ → ℚ
  cos : ℚ → ℚ
  sin : ℚ → ℚ

/-- The velocity update of `updatePlayerMovement`: read the four held-key
booleans, normalize diagonals by the source's literal `0.707`, apply
acceleration toward the input or deceleration toward zero, and clamp the
speed to the configured maximum. -/
def updatedVelocity (ops : MathOps) (heldKeys : List String) (player : Player)
    (deltaTime : ℚ) : ℚ × ℚ :=
  let inputX0 : ℚ :=
    (if heldKeys.contains player.keys.left then -1 else 0) +
      (if heldKeys.contains player.keys.right then 1 else 0)
  let inputY0 : ℚ :=
    (if heldKeys.contains player.keys.up then -1 else 0) +
      (if heldKeys.contains player.keys.down then 1 else 0)
  let inputX := if inputX0 ≠ 0 ∧ inputY0 ≠ 0 then inputX0 * (707 / 1000) else inputX0
  let inputY := if inputX0 ≠ 0 ∧ inputY0 ≠ 0 then inputY0 * (707 / 1000) else inputY0
  let acceleration : ℚ := 1200
  let deceleration : ℚ := 800
  let maxSpeed := PLAYER_SPEED
  let dt := deltaTime / 1000
  let vx1 :=
    if inputX ≠ 0 then player.vx + inputX * acceleration * dt
    else if player.vx > 0 then max 0 (player.vx - deceleration * dt)
    else if player.vx < 0 then min 0 (player.vx + deceleration * dt)
    else player.vx
  let vy1 :=
    if inputY ≠ 0 then player.vy + inputY * acceleration * dt
    else if player.vy > 0 then max 0 (player.vy - deceleration * dt)
    else if player.vy < 0 then min 0 (player.vy + deceleration * dt)
    else player.vy
  let speed := ops.sqrt (vx1 * vx1 + vy1 * vy1)
  if speed > maxSpeed then (vx1 / speed * maxSpeed, vy1 / speed * maxSpeed)
  else (vx1, vy1)

/-- The candidate position `(newX, newY)` of `updatePlayerMovement`. -/
def candidatePos (ops : MathOps) (heldKeys : List String) (player : Player)
    (deltaTime : ℚ) : Q3 × Q3 :=
  let v := updatedVelocity ops heldKeys player deltaTime
  let dt := deltaTime / 1000
  (player.x + Q3.ofRat (v.1 * dt), player.y + Q3.ofRat (v.2 * dt))

/-- The squash-stretch scales written before the tile check. -/
def updatedScales (ops : MathOps) (vx vy : ℚ) : ℚ × ℚ :=
  let velocityMagnitude := ops.sqrt (vx * vx + vy * vy)
  let stretchFactor := min (velocityMagnitude / PLAYER_SPEED) 1 * (2 / 10)
  if velocityMagnitude > 10 then
    (1 + |ops.cos (ops.atan2 vy vx)| * stretchFactor,
     1 + |ops.sin (ops.atan2 vy vx)| * stretchFactor)
  else (1, 1)

/-- `InputHandler.updatePlayerMovement(player, deltaTime)`: the per-tick
momentum integration and off-board check for one player (identified by
index, the model of the object reference). -/
def updatePlayerMovement (ops : MathOps) (gs : GameState) (heldKeys : List String)
    (index : ℕ) (deltaTime : ℚ) (now : ℚ) : GameState × List GameEvent × Option ℚ :=
  match gs.players.find? (fun p => p.index == index) with
  | none => (gs, [], none)
  | some player =>
    if player.isFalling then (gs, [], none)
    else
      let v := updatedVelocity ops heldKeys player deltaTime
      let pos := candidatePos ops heldKeys player deltaTime
      let sc := updatedScales ops v.1 v.2
      let player1 :=
        { player with vx := v.1, vy := v.2, scaleX := sc.1, scaleY := sc.2 }
      if !(gs.isTileActive pos.1 pos.2) then
        let player2 := player1.startFalling now
        GameState.eliminatePlayer
          { gs with players := gs.players.map (fun p =>
              if p.index = index then player2 else p) }
          index now
      else
        ({ gs with players := gs.players.map (fun p =>
            if p.index = index then { player1 with x := pos.1, y := pos.2 } else p) },
          [], none)

theorem find?_if_index_map (l : List Player) (index : ℕ) (g : Player → Player)
    (hg : ∀ q, q.index = index → (g q).index = index) :
    (l.map (fun q => if q.index = index then g q else q)).find?
        (fun q => q.index == index) =
      (l.find? (fun q => q.index == index)).map
        (fun q => if q.index = index then g q else q) := by
  rw [List.find?_map]
  have hpred : ((fun q => q.index == index) ∘
      fun q : Player => if q.index = index then g q else q) =
      fun q : Player => q.index == index := by
    funext q
    simp only [Function.comp_apply]
    by_cases h : q.index = index
    · simp [h, hg q h]
    · simp [h]
  rw [hpred]

theorem upm_falling (ops : MathOps) (gs : GameState) (heldKeys : List String)
    (index : ℕ) (deltaTime now : ℚ) (p : Player)
    (hfind : gs.players.find? (fun q => q.index == index) = some p)
    (hf : p.isFalling = true) :
    updatePlayerMovement ops gs heldKeys index deltaTime now = (gs, [], none) := by
  rw [updatePlayerMovement, hfind]
  simp [hf]

theorem upm_inactive (ops : MathOps) (gs : GameState) (heldKeys : List String)
    (index : ℕ) (deltaTime now : ℚ) (p : Player)
    (hfind : gs.players.find? (fun q => q.index == index) = some p)
    (hnf : p.isFalling = false)
    (hinact : gs.isTileActive (candidatePos ops heldKeys p deltaTime).1
      (candidatePos ops heldKeys p deltaTime).2 = false) :
    updatePlayerMovement ops gs heldKeys index deltaTime now =
      GameState.eliminatePlayer
        { gs with players := gs.players.map (fun q =>
            if q.index = index then
              (({ p with
                  vx := (updatedVelocity ops heldKeys p deltaTime).1,
                  vy := (updatedVelocity ops heldKeys p deltaTime).2,
                  scaleX := (updatedScales ops (updatedVelocity ops heldKeys p deltaTime).1
                    (updatedVelocity ops heldKeys p deltaTime).2).1,
                  scaleY := (updatedScales ops (updatedVelocity ops heldKeys p deltaTime).1
                    (updatedVelocity ops heldKeys p deltaTime).2).2 } : Player).startFalling now)
            else q) }
        index now := by
  rw [updatePlayerMovement, hfind]
  simp only [hnf, Bool.false_eq_true, if_false, hinact, Bool.not_false, if_true]

theorem upm_active (ops : MathOps) (gs : GameState) (heldKeys : List String)
    (index : ℕ) (deltaTime now : ℚ) (p : Player)
    (hfind : gs.players.find? (fun q => q.index == index) = some p)
    (hnf : p.isFalling = false)
    (hact : gs.isTileActive (candidatePos ops heldKeys p deltaTime).1
      (candidatePos ops heldKeys p deltaTime).2 = true) :
    updatePlayerMovement ops gs heldKeys index deltaTime now =
      ({ gs with players := gs.players.map (fun q =>
          if q.index = index then
            { p with
                vx := (updatedVelocity ops heldKeys p deltaTime).1,
                vy := (updatedVelocity ops heldKeys p deltaTime).2,
                scaleX := (updatedScales ops (updatedVelocity ops heldKeys p deltaTime).1
                  (updatedVelocity ops heldKeys p deltaTime).2).1,
                scaleY := (updatedScales ops (updatedVelocity ops heldKeys p deltaTime).1
                  (updatedVelocity ops heldKeys p deltaTime).2).2,
                x := (candidatePos ops heldKeys p deltaTime).1,
                y := (candidatePos ops heldKeys p deltaTime).2 }
          else q) },
        [], none) := by
  rw [updatePlayerMovement, hfind]
  simp only [hnf, Bool.false_eq_true, if_false, hact, Bool.not_true]

theorem eliminatePlayer_events (gs : GameState) (index : ℕ) (now : ℚ) :
    (gs.eliminatePlayer index now).2.1 = [GameEvent.playerEliminated index] := by
  rw [GameState.eliminatePlayer]
  by_cases hc : (gs.alivePlayers.filter (fun i => i != index)).length ≤ 1 <;> simp [hc]

theorem eliminatePlayer_alive (gs : GameState) (index : ℕ) (now : ℚ) :
    (gs.eliminatePlayer index now).1.alivePlayers =
      gs.alivePlayers.filter (fun i => i != index) := by
  rw [GameState.eliminatePlayer]
  by_cases hc : (gs.alivePlayers.filter (fun i => i != index)).length ≤ 1 <;> simp [hc]

theorem eliminatePlayer_players (gs : GameState) (index : ℕ) (now : ℚ) :
    (gs.eliminatePlayer index now).1.players =
      gs.players.map (fun p => if p.index = index then
        { p with isAlive := false, survivalTime := now - gs.gameStartTime }
      else p) := by
  rw [GameState.eliminatePlayer]
  by_cases hc : (gs.alivePlayers.filter (fun i => i != index)).length ≤ 1 <;> simp [hc]

theorem not_mem_filter_bne (l : List ℕ) (index : ℕ) :
    index ∉ l.filter (fun i => i != index) := by
  simp [List.mem_filter]

/-- **C7**: a tick on an alive, non-falling player whose candidate position
maps to an inactive or missing tile eliminates that player exactly once
(one `playerEliminated` event), leaves the pixel position unchanged, marks
the player falling and dead and removes it from the alive roster; once
falling, every later tick is a complete no-op; and with an active candidate
tile the position is committed to the candidate. -/
theorem movement_spec (ops : MathOps) (gs : GameState) (heldKeys : List String)
    (index : ℕ) (deltaTime now : ℚ) (p : Player)
    (hfind : gs.players.find? (fun q => q.index == index) = some p) :
    (p.isFalling = true →
      updatePlayerMovement ops gs heldKeys index deltaTime now = (gs, [], none)) ∧
    (p.isFalling = false →
      gs.isTileActive (candidatePos ops heldKeys p deltaTime).1
        (candidatePos ops heldKeys p deltaTime).2 = false →
      (updatePlayerMovement ops gs heldKeys index deltaTime now).2.1 =
        [GameEvent.playerEliminated index] ∧
      index ∉ (updatePlayerMovement ops gs heldKeys index deltaTime now).1.alivePlayers ∧
      ∀ p', (updatePlayerMovement ops gs heldKeys index deltaTime now).1.players.find?
          (fun q => q.index == index) = some p' →
        p'.x = p.x ∧ p'.y = p.y ∧ p'.isFalling = true ∧ p'.isAlive = false) ∧
    (p.isFalling = false →
      gs.isTileActive (candidatePos ops heldKeys p deltaTime).1
        (candidatePos ops heldKeys p deltaTime).2 = true →
      (updatePlayerMovement ops gs heldKeys index deltaTime now).2.1 = [] ∧
      ∀ p', (updatePlayerMovement ops gs heldKeys index deltaTime now).1.players.find?
          (fun q => q.index == index) = some p' →
        p'.x = (candidatePos ops heldKeys p deltaTime).1 ∧
        p'.y = (candidatePos ops heldKeys p deltaTime).2) := by
  have hpidx : p.index = index := by
    have h := List.find?_some hfind
    simpa using h
  refine ⟨fun hf => upm_falling ops gs heldKeys index deltaTime now p hfind hf, ?_, ?_⟩
  · intro hnf hinact
    rw [upm_inactive ops gs heldKeys index deltaTime now p hfind hnf hinact]
    set P2 : Player :=
      (({ p with
          vx := (updatedVelocity ops heldKeys p deltaTime).1,
          vy := (updatedVelocity ops heldKeys p deltaTime).2,
          scaleX := (updatedScales ops (updatedVelocity ops heldKeys p deltaTime).1
            (updatedVelocity ops heldKeys p deltaTime).2).1,
          scaleY := (updatedScales ops (updatedVelocity ops heldKeys p deltaTime).1
            (updatedVelocity ops heldKeys p deltaTime).2).2 } : Player).startFalling now)
      with hP2
    refine ⟨eliminatePlayer_events _ index now, ?_, ?_⟩
    · rw [eliminatePlayer_alive]
      exact not_mem_filter_bne _ index
    · intro p' hp'
      rw [eliminatePlayer_players] at hp'
      dsimp only at hp'
      have h2 := find?_if_index_map
        (gs.players.map (fun q => if q.index = index then P2 else q)) index
        (fun q => { q with isAlive := false, survivalTime := now - gs.gameStartTime })
        (fun q hq => hq)
      rw [h2] at hp'
      have h1 := find?_if_index_map gs.players index (fun _ => P2)
        (fun q _ => hpidx)
      rw [h1, hfind] at hp'
      simp only [Option.map_some'] at hp'
      rw [if_pos hpidx] at hp'
      have hP2idx : P2.index = index := hpidx
      rw [if_pos hP2idx] at hp'
      obtain rfl : ({ P2 with isAlive := false, survivalTime := now - gs.gameStartTime } : Player) = p' :=
        Option.some.inj hp'
      refine ⟨?_, ?_, rfl, rfl⟩ <;> rw [hP2] <;> rfl
  · intro hnf hact
    rw [upm_active ops gs heldKeys index deltaTime now p hfind hnf hact]
    refine ⟨rfl, ?_⟩
    intro p' hp'
    dsimp only at hp'
    have h1 := find?_if_index_map gs.players index
      (fun _ => ({ p with
          vx := (updatedVelocity ops heldKeys p deltaTime).1,
          vy := (updatedVelocity ops heldKeys p deltaTime).2,
          scaleX := (updatedScales ops (updatedVelocity ops heldKeys p deltaTime).1
            (updatedVelocity ops heldKeys p deltaTime).2).1,
          scaleY := (updatedScales ops (updatedVelocity ops heldKeys p deltaTime).1
            (updatedVelocity ops heldKeys p deltaTime).2).2,
          x := (candidatePos ops heldKeys p deltaTime).1,
          y := (candidatePos ops heldKeys p deltaTime).2 } : Player))
      (fun q _ => hpidx)
    rw [h1, hfind] at hp'
    simp only [Option.map_some'] at hp'
    rw [if_pos hpidx] at hp'
    obtain rfl := Option.some.inj hp'
    exact ⟨rfl, rfl⟩

/-- Degenerate math ops used for concrete evaluation (the claims hold for
every implementation of the abstracted functions). -/
def mathOps0 : MathOps := ⟨fun _ => 0, fun _ _ => 0, fun _ => 0, fun _ => 0⟩

/-- A match state with an empty board and one alive player at the origin. -/
def emptyBoardState : GameState where
  board := []
  players := [Player.new 0 keysWASD ⟨0, 0⟩ ⟨0, 0⟩]
  alivePlayers := [0]
  matchPhase := MatchPhase.InProgress
  gameStartTime := 0
  centerX := 0
  centerY := 0

/-- Witness for C7: on an empty board every candidate tile is missing, so
the tick eliminates the player, emitting exactly one notification. -/
theorem movement_spec_witness :
    (updatePlayerMovement mathOps0 emptyBoardState [] 0 16 50).2.1 =
      [GameEvent.playerEliminated 0] :=
  ((movement_spec mathOps0 emptyBoardState [] 0 16 50
    (Player.new 0 keysWASD ⟨0, 0⟩ ⟨0, 0⟩) rfl).2.1 rfl rfl).1

theorem removeTile_preserves (gs : GameState) (posKey : Key) (now : ℚ) :
    (gs.removeTile posKey now).1.players = gs.players ∧
    (gs.removeTile posKey now).1.alivePlayers = gs.alivePlayers ∧
    (gs.removeTile posKey now).1.centerX = gs.centerX ∧
    (gs.removeTile posKey now).1.centerY = gs.centerY := by
  rw [GameState.removeTile]
  cases mapGet posKey gs.board <;> exact ⟨rfl, rfl, rfl, rfl⟩

theorem removeTile_board_get (gs : GameState) (posKey : Key) (now : ℚ) (t : Tile)
    (ht : mapGet posKey gs.board = some t) :
    mapGet posKey (gs.removeTile posKey now).1.board = some (t.startShatter now) := by
  rw [GameState.removeTile, ht]
  dsimp only
  rw [GameState.mapGet_updateBoard, ht]
  rfl

/-- **C10**: `removeTile` does not clear the tile's active flag — after it,
the tile is shattering but still active, `isTileActive` over it still
answers true, and it only becomes inactive when `getShatterProgress`
reaches the shatter duration (400 ms) and calls `fall()`; consequently a
movement tick whose candidate lies over the shattering-but-not-yet-fallen
tile commits the move and eliminates nobody. -/
theorem shatterWindow_spec (gs : GameState) (posKey : Key) (now : ℚ) (t : Tile)
    (ht : mapGet posKey gs.board = some t) (hact : t.isActive = true)
    (hdur : 0 < t.shatterDuration) :
    ((t.startShatter now).isShattering = true ∧
     (t.startShatter now).isActive = true ∧
     mapGet posKey (gs.removeTile posKey now).1.board =
       some (t.startShatter now)) ∧
    (∀ x y : Q3, (pixelToAxial x y HEX_SIZE gs.centerX gs.centerY).toKey = posKey →
      (gs.removeTile posKey now).1.isTileActive x y = true) ∧
    (∀ now', now' - now < t.shatterDuration →
      ((t.startShatter now).getShatterProgress now').1.isActive = true ∧
      ((t.startShatter now).getShatterProgress now').1.isShattering = true) ∧
    (∀ now', t.shatterDuration ≤ now' - now →
      ((t.startShatter now).getShatterProgress now').1.isActive = false ∧
      ((t.startShatter now).getShatterProgress now').1.isShattering = false) ∧
    Tile.new.shatterDuration = 400 ∧
    (∀ ops heldKeys index deltaTime now2 p2,
      gs.players.find? (fun q => q.index == index) = some p2 →
      p2.isFalling = false →
      (pixelToAxial (candidatePos ops heldKeys p2 deltaTime).1
        (candidatePos ops heldKeys p2 deltaTime).2 HEX_SIZE
        gs.centerX gs.centerY).toKey = posKey →
      (updatePlayerMovement ops (gs.removeTile posKey now).1 heldKeys index
        deltaTime now2).2.1 = []) := by
  have hShat : (t.startShatter now).isActive = true := hact
  have htile : ∀ x y : Q3,
      (pixelToAxial x y HEX_SIZE gs.centerX gs.centerY).toKey = posKey →
      (gs.removeTile posKey now).1.isTileActive x y = true := by
    intro x y hxy
    obtain ⟨-, -, hcx, hcy⟩ := removeTile_preserves gs posKey now
    rw [GameState.isTileActive]
    simp only [hcx, hcy, hxy, removeTile_board_get gs posKey now t ht]
    exact hShat
  refine ⟨⟨rfl, hShat, removeTile_board_get gs posKey now t ht⟩, htile, ?_, ?_, rfl, ?_⟩
  · intro now' h
    rw [Tile.getShatterProgress]
    have hshat : (t.startShatter now).isShattering = true := rfl
    have hlt : (now' - (t.startShatter now).shatterStartTime) /
        (t.startShatter now).shatterDuration < 1 := by
      have : (now' - now) / t.shatterDuration < 1 := (div_lt_one hdur).mpr h
      exact this
    have hcond : ¬(1 : ℚ) ≤ min ((now' - (t.startShatter now).shatterStartTime) /
        (t.startShatter now).shatterDuration) 1 :=
      not_le.mpr (lt_of_le_of_lt (min_le_left _ _) hlt)
    simp only [hshat, Bool.not_true, Bool.false_eq_true, if_false, hcond, if_neg hcond]
    exact ⟨hShat, trivial⟩
  · intro now' h
    rw [Tile.getShatterProgress]
    have hshat : (t.startShatter now).isShattering = true := rfl
    have hge : (1 : ℚ) ≤ (now' - (t.startShatter now).shatterStartTime) /
        (t.startShatter now).shatterDuration := by
      have : (1 : ℚ) ≤ (now' - now) / t.shatterDuration := (one_le_div hdur).mpr h
      exact this
    have hcond : (1 : ℚ) ≤ min ((now' - (t.startShatter now).shatterStartTime) /
        (t.startShatter now).shatterDuration) 1 := le_min hge le_rfl
    simp only [hshat, Bool.not_true, Bool.false_eq_true, if_false, if_pos hcond]
    exact ⟨rfl, rfl⟩
  · intro ops heldKeys index deltaTime now2 p2 hfind hnf hkey
    obtain ⟨hpl, -, -, -⟩ := removeTile_preserves gs posKey now
    have hfind2 : (gs.removeTile posKey now).1.players.find?
        (fun q => q.index == index) = some p2 := by rw [hpl]; exact hfind
    have hactive := htile (candidatePos ops heldKeys p2 deltaTime).1
      (candidatePos ops heldKeys p2 deltaTime).2 hkey
    rw [upm_active ops (gs.removeTile posKey now).1 heldKeys index deltaTime now2
      p2 hfind2 hnf hactive]

/-- A one-tile board for the C10 witness. -/
def c10State : GameState where
  board := [((0, 0), Tile.new)]
  players := []
  alivePlayers := []
  matchPhase := MatchPhase.InProgress
  gameStartTime := 0
  centerX := 0
  centerY := 0

/-- Witness for C10: removing the concrete tile leaves it active while
shattering, and at 250 ms of the 400 ms window it is still active. -/
theorem shatterWindow_spec_witness :
    ((Tile.new.startShatter 100).isShattering = true ∧
     (Tile.new.startShatter 100).isActive = true ∧
     mapGet (0, 0) (c10State.removeTile (0, 0) 100).1.board =
       some (Tile.new.startShatter 100)) ∧
    ((Tile.new.startShatter 100).getShatterProgress 350).1.isActive = true ∧
    ((Tile.new.startShatter 100).getShatterProgress 350).1.isShattering = true :=
  ⟨(shatterWindow_spec c10State (0, 0) 100 Tile.new rfl rfl
      (by norm_num [Tile.new])).1,
   (shatterWindow_spec c10State (0, 0) 100 Tile.new rfl rfl
      (by norm_num [Tile.new])).2.2.1 350 (by norm_num [Tile.new])⟩

/-! ## Elimination scheduler (`src/game/TileFallManager.js`) -/

/-- `Math.floor(Math.random() * list.length)`: the index drawn from `u`. -/
def selIndex (n : ℕ) (u : ℚ) : ℕ := (⌊u * n⌋).toNat

/-- The candidate tiles of one scheduler cycle: active and not warning, in
board order. -/
def candidateTiles (gs : GameState) : List Key :=
  (gs.board.filter (fun kt => kt.2.isActive && !kt.2.isWarning)).map Prod.fst

/-- The candidates occupied by at least one alive player. -/
def occupiedTiles (gs : GameState) : List Key :=
  (candidateTiles gs).filter (fun k => decide (0 < (gs.checkPlayersOnTile k).length))

/-- `TileFallManager.selectRandomTile()`: pick one candidate (biased toward
occupied tiles with probability 0.2), mark it warning, and report the key
whose warning timer the caller schedules. `u1`, `u2` are the two
`Math.random()` draws. -/
def selectRandomTile (gs : GameState) (u1 u2 now : ℚ) :
    GameState × List GameEvent × Option Key :=
  let activeTiles := candidateTiles gs
  let tilesWithPlayers := occupiedTiles gs
  if activeTiles.isEmpty then (gs, [], none)
  else
    let posKey :=
      if !tilesWithPlayers.isEmpty && decide (u1 < 1 / 5) then
        tilesWithPlayers.getD (selIndex tilesWithPlayers.length u2) (0, 0)
      else activeTiles.getD (selIndex activeTiles.length u2) (0, 0)
    let r := gs.markTileWarning posKey now
    (r.1, r.2, some posKey)

/-- The scheduler state. `pendingFalls` and `nextFallTimeout` store the
fire times of the outstanding `setTimeout`s (the model of the stored
timer handles). -/
structure TileFallManager where
  fallInterval : ℚ
  pendingFalls : List (Key × ℚ)
  nextFallTimeout : Option ℚ
  isRunning : Bool
deriving DecidableEq, Repr

namespace TileFallManager

/-- The `TileFallManager` constructor. -/
def new : TileFallManager where
  fallInterval := TILE_FALL_INTERVAL
  pendingFalls := []
  nextFallTimeout := none
  isRunning := false

/-- `stop()`: clear the running flag, cancel the selection timer and every
pending warning timer. -/
def stop (m : TileFallManager) : TileFallManager :=
  { m with isRunning := false, nextFallTimeout := none, pendingFalls := [] }

/-- `scheduleNextFall()`. -/
def scheduleNextFall (m : TileFallManager) (now : ℚ) : TileFallManager :=
  if m.isRunning then { m with nextFallTimeout := some (now + m.fallInterval) }
  else m

/-- `start()`. -/
def start (m : TileFallManager) (now : ℚ) : TileFallManager :=
  scheduleNextFall { m with isRunning := true, fallInterval := TILE_FALL_INTERVAL } now

/-- `accelerateFallRate()`. -/
def accelerateFallRate (m : TileFallManager) : TileFallManager :=
  { m with fallInterval := accelerateInterval m.fallInterval }

end TileFallManager

/-- `Map.set(key, value)` on an association list. -/
def mapSet {β : Type} (l : List (Key × β)) (k : Key) (v : β) : List (Key × β) :=
  if l.any (fun kt => decide (kt.1 = k)) then
    l.map (fun kt => if kt.1 = k then (kt.1, v) else kt)
  else l ++ [(k, v)]

/-- The body of the selection `setTimeout`: `selectRandomTile()` (which also
registers the warning timer in `pendingFalls`), `accelerateFallRate()`,
`scheduleNextFall()`. -/
def fireNextFall (m : TileFallManager) (gs : GameState) (u1 u2 : ℚ) (now : ℚ) :
    TileFallManager × GameState × List GameEvent :=
  let m0 := { m with nextFallTimeout := none }
  let r := selectRandomTile gs u1 u2 now
  let m1 := match r.2.2 with
    | some k =>
      { m0 with pendingFalls := mapSet m0.pendingFalls k (now + TILE_WARNING_DURATION) }
    | none => m0
  let m2 := m1.accelerateFallRate
  (m2.scheduleNextFall now, r.1, r.2.1)

/-- `executeFall(posKey)`: drop the bookkeeping entry, mark and eliminate
every occupying alive player, then remove the tile. -/
def executeFall (m : TileFallManager) (gs : GameState) (posKey : Key) (now : ℚ) :
    TileFallManager × GameState × List GameEvent :=
  let m1 := { m with
    pendingFalls := m.pendingFalls.filter (fun kt => !(decide (kt.1 = posKey))) }
  let playersOnTile := gs.checkPlayersOnTile posKey
  let step := playersOnTile.foldl (fun (acc : GameState × List GameEvent) i =>
    let gsf := { acc.1 with players := acc.1.players.map (fun (p : Player) =>
      if p.index = i then p.startFalling now else p) }
    let r := gsf.eliminatePlayer i now
    (r.1, acc.2 ++ r.2.1)) (gs, [])
  let r2 := step.1.removeTile posKey now
  (m1, r2.1, step.2 ++ r2.2)

/-- A live scheduler timer with its fire time. -/
inductive SchedTimer where
  | nextFall (fire : ℚ)
  | warningFall (posKey : Key) (fire : ℚ)
deriving DecidableEq, Repr

def SchedTimer.fireTime : SchedTimer → ℚ
  | .nextFall t => t
  | .warningFall _ t => t

/-- Every timer the scheduler currently owns. -/
def timersOf (m : TileFallManager) : List SchedTimer :=
  (match m.nextFallTimeout with
    | some t => [SchedTimer.nextFall t]
    | none => []) ++
  m.pendingFalls.map (fun kt => SchedTimer.warningFall kt.1 kt.2)

/-- The earliest timer due at or before the horizon, if any. -/
def earliestDue (m : TileFallManager) (horizon : ℚ) : Option SchedTimer :=
  ((timersOf m).filter (fun t => decide (t.fireTime ≤ horizon))).foldl
    (fun acc t => match acc with
      | none => some t
      | some b => if t.fireTime < b.fireTime then some t else some b) none

/-- Drive the JS event loop up to `horizon`: repeatedly fire the earliest
scheduler timer that is due (`fuel` bounds the number of firings); random
draws for the selection cycles are consumed from `rnds`. -/
def runScheduler : ℕ → TileFallManager → GameState → ℚ → List (ℚ × ℚ) →
    TileFallManager × GameState × List GameEvent
  | 0, m, gs, _, _ => (m, gs, [])
  | Nat.succ fuel, m, gs, horizon, rnds =>
    match earliestDue m horizon with
    | none => (m, gs, [])
    | some (SchedTimer.nextFall t) =>
      let u := rnds.headD (0, 0)
      let r1 := fireNextFall m gs u.1 u.2 t
      let r2 := runScheduler fuel r1.1 r1.2.1 horizon rnds.tail
      (r2.1, r2.2.1, r1.2.2 ++ r2.2.2)
    | some (SchedTimer.warningFall k t) =>
      let r1 := executeFall m gs k t
      let r2 := runScheduler fuel r1.1 r1.2.1 horizon rnds
      (r2.1, r2.2.1, r1.2.2 ++ r2.2.2)

/-- **C2**: after `stop()` the scheduler's bookkeeping holds no timer at
all, so advancing simulated time arbitrarily far fires nothing: the game
state (in particular every tile) is untouched and no event is emitted; and
`stop` is idempotent — from any state reachable after `stop` (all of which
are `m.stop` itself, since advancing changes nothing), a second `stop`
changes nothing. -/
theorem stop_spec (m : TileFallManager) (gs : GameState) :
    (m.stop.nextFallTimeout = none ∧ m.stop.pendingFalls = []) ∧
    m.stop.stop = m.stop ∧
    (∀ fuel horizon rnds, runScheduler fuel m.stop gs horizon rnds = (m.stop, gs, [])) := by
  refine ⟨⟨rfl, rfl⟩, rfl, ?_⟩
  intro fuel horizon rnds
  cases fuel <;> rfl

theorem mem_candidateTiles {gs : GameState} {k : Key} :
    k ∈ candidateTiles gs ↔
      ∃ t, (k, t) ∈ gs.board ∧ t.isActive = true ∧ t.isWarning = false := by
  simp only [candidateTiles, List.mem_map, List.mem_filter, Bool.and_eq_true,
    Bool.not_eq_true']
  constructor
  · rintro ⟨⟨k2, t⟩, ⟨hmem, hact, hwarn⟩, rfl⟩
    exact ⟨t, hmem, hact, hwarn⟩
  · rintro ⟨t, hmem, hact, hwarn⟩
    exact ⟨(k, t), ⟨hmem, hact, hwarn⟩, rfl⟩

theorem mem_occupiedTiles {gs : GameState} {k : Key} :
    k ∈ occupiedTiles gs ↔
      k ∈ candidateTiles gs ∧ gs.checkPlayersOnTile k ≠ [] := by
  simp [occupiedTiles, List.mem_filter, List.length_pos]

theorem mapGet_eq_of_mem_nodup {board : List (Key × Tile)} {k : Key} {t : Tile}
    (hmem : (k, t) ∈ board) (hnodup : (board.map Prod.fst).Nodup) :
    mapGet k board = some t := by
  induction board with
  | nil => cases hmem
  | cons kt rest ih =>
    rw [List.map_cons, List.nodup_cons] at hnodup
    rcases List.mem_cons.mp hmem with heq | hrest
    · rw [← heq]
      simp [mapGet]
    · by_cases hk : kt.1 = k
      · exfalso
        apply hnodup.1
        rw [hk]
        exact List.mem_map_of_mem Prod.fst hrest
      · simp only [mapGet, if_neg hk]
        exact ih hrest hnodup.2

theorem markTileWarning_active (gs : GameState) (posKey : Key) (now : ℚ) (t : Tile)
    (ht : mapGet posKey gs.board = some t) (hact : t.isActive = true) :
    gs.markTileWarning posKey now =
      ({ gs with
          board := GameState.updateBoard gs.board posKey (fun u => u.startWarning now) },
        [GameEvent.tileWarning posKey]) := by
  simp [GameState.markTileWarning, ht, hact]

theorem selIndex_spec (n : ℕ) (u : ℚ) (hn : 0 < n) (h0 : 0 ≤ u) (h1 : u < 1) :
    selIndex n u < n ∧
    ∀ i, i < n → (selIndex n u = i ↔ (i : ℚ) / n ≤ u ∧ u < ((i : ℚ) + 1) / n) := by
  have hn2 : (0 : ℚ) < (n : ℚ) := by exact_mod_cast hn
  have hfl0 : 0 ≤ ⌊u * (n : ℚ)⌋ := Int.floor_nonneg.mpr (by positivity)
  have hfllt : ⌊u * (n : ℚ)⌋ < (n : ℤ) := by
    apply Int.floor_lt.mpr
    push_cast
    nlinarith
  constructor
  · simp only [selIndex]
    omega
  · intro i hi
    simp only [selIndex]
    constructor
    · intro he
      have hfe : ⌊u * (n : ℚ)⌋ = (i : ℤ) := by omega
      obtain ⟨hl, hr⟩ := Int.floor_eq_iff.mp hfe
      constructor
      · rw [div_le_iff₀ hn2]
        exact_mod_cast hl
      · rw [lt_div_iff₀ hn2]
        push_cast at hr ⊢
        linarith
    · rintro ⟨hl, hr⟩
      rw [div_le_iff₀ hn2] at hl
      rw [lt_div_iff₀ hn2] at hr
      have hfe : ⌊u * (n : ℚ)⌋ = (i : ℤ) := by
        apply Int.floor_eq_iff.mpr
        constructor
        · exact_mod_cast hl
        · push_cast
          linarith
      omega

/-- **C6**: each scheduler cycle's candidate set is exactly the active,
non-warning tiles; an empty candidate set makes the cycle a silent no-op;
otherwise exactly one candidate is selected and marked warning (all other
tiles untouched), the selection taken uniformly (by the floor-of-scaled-draw
index, whose preimages are the equal-length intervals `[i/n, (i+1)/n)`)
from the occupied candidates when one exists and the 20 % draw (`u1 < 1/5`)
hits, and from all candidates otherwise. -/
theorem selectRandomTile_spec (gs : GameState) (u1 u2 now : ℚ)
    (hnodup : (gs.board.map Prod.fst).Nodup)
    (h20 : 0 ≤ u2) (h21 : u2 < 1) :
    (∀ k, k ∈ candidateTiles gs ↔
      ∃ t, (k, t) ∈ gs.board ∧ t.isActive = true ∧ t.isWarning = false) ∧
    (∀ k, k ∈ occupiedTiles gs ↔
      k ∈ candidateTiles gs ∧ gs.checkPlayersOnTile k ≠ []) ∧
    (candidateTiles gs = [] → selectRandomTile gs u1 u2 now = (gs, [], none)) ∧
    (candidateTiles gs ≠ [] →
      ∃ k t,
        (selectRandomTile gs u1 u2 now).2.2 = some k ∧
        k ∈ candidateTiles gs ∧
        mapGet k gs.board = some t ∧ t.isActive = true ∧ t.isWarning = false ∧
        (selectRandomTile gs u1 u2 now).2.1 = [GameEvent.tileWarning k] ∧
        (selectRandomTile gs u1 u2 now).1 =
          { gs with
              board := GameState.updateBoard gs.board k
                (fun u => u.startWarning now) } ∧
        mapGet k (selectRandomTile gs u1 u2 now).1.board =
          some (t.startWarning now) ∧
        (∀ k2, k2 ≠ k →
          mapGet k2 (selectRandomTile gs u1 u2 now).1.board = mapGet k2 gs.board) ∧
        k = (if occupiedTiles gs ≠ [] ∧ u1 < 1 / 5 then
              (occupiedTiles gs).getD (selIndex (occupiedTiles gs).length u2) (0, 0)
            else
              (candidateTiles gs).getD (selIndex (candidateTiles gs).length u2)
                (0, 0))) ∧
    (∀ n u, 0 < n → 0 ≤ u → (u : ℚ) < 1 → selIndex n u < n ∧
      ∀ i, i < n → (selIndex n u = i ↔ (i : ℚ) / n ≤ u ∧ u < ((i : ℚ) + 1) / n)) := by
  refine ⟨fun k => mem_candidateTiles, fun k => mem_occupiedTiles, ?_, ?_,
    fun n u hn h0 h1 => selIndex_spec n u hn h0 h1⟩
  · intro he
    simp [selectRandomTile, he]
  · intro hne
    have hemp : (candidateTiles gs).isEmpty = false := by
      simp [List.isEmpty_iff, hne]
    have tail : ∀ kk : Key, kk ∈ candidateTiles gs →
        selectRandomTile gs u1 u2 now =
          ((gs.markTileWarning kk now).1, (gs.markTileWarning kk now).2, some kk) →
        kk = (if occupiedTiles gs ≠ [] ∧ u1 < 1 / 5 then
              (occupiedTiles gs).getD (selIndex (occupiedTiles gs).length u2) (0, 0)
            else
              (candidateTiles gs).getD (selIndex (candidateTiles gs).length u2)
                (0, 0)) →
        ∃ k t,
          (selectRandomTile gs u1 u2 now).2.2 = some k ∧
          k ∈ candidateTiles gs ∧
          mapGet k gs.board = some t ∧ t.isActive = true ∧ t.isWarning = false ∧
          (selectRandomTile gs u1 u2 now).2.1 = [GameEvent.tileWarning k] ∧
          (selectRandomTile gs u1 u2 now).1 =
            { gs with
                board := GameState.updateBoard gs.board k
                  (fun u => u.startWarning now) } ∧
          mapGet k (selectRandomTile gs u1 u2 now).1.board =
            some (t.startWarning now) ∧
          (∀ k2, k2 ≠ k →
            mapGet k2 (selectRandomTile gs u1 u2 now).1.board = mapGet k2 gs.board) ∧
          k = (if occupiedTiles gs ≠ [] ∧ u1 < 1 / 5 then
                (occupiedTiles gs).getD (selIndex (occupiedTiles gs).length u2) (0, 0)
              else
                (candidateTiles gs).getD (selIndex (candidateTiles gs).length u2)
                  (0, 0)) := by
      intro kk hkcand hsel hkif
      obtain ⟨t, htmem, htact, htwarn⟩ := mem_candidateTiles.mp hkcand
      have hget : mapGet kk gs.board = some t := mapGet_eq_of_mem_nodup htmem hnodup
      have hmtw := markTileWarning_active gs kk now t hget htact
      refine ⟨kk, t, by rw [hsel], hkcand, hget, htact, htwarn, ?_, ?_, ?_, ?_, hkif⟩
      · rw [hsel]
        dsimp only
        rw [hmtw]
      · rw [hsel]
        dsimp only
        rw [hmtw]
      · rw [hsel]
        dsimp only
        rw [hmtw]
        dsimp only
        rw [GameState.mapGet_updateBoard, hget]
        rfl
      · intro k2 hk2
        rw [hsel]
        dsimp only
        rw [hmtw]
        dsimp only
        exact GameState.mapGet_updateBoard_ne gs.board kk k2 _ hk2
    by_cases hb : occupiedTiles gs ≠ [] ∧ u1 < 1 / 5
    · have hoblen : 0 < (occupiedTiles gs).length := List.length_pos.mpr hb.1
      have hidx := (selIndex_spec _ u2 hoblen h20 h21).1
      have hmem : (occupiedTiles gs).getD (selIndex (occupiedTiles gs).length u2)
          (0, 0) ∈ occupiedTiles gs := by
        rw [List.getD_eq_getElem _ _ hidx]
        exact List.getElem_mem _
      have hcond : (!(occupiedTiles gs).isEmpty && decide (u1 < 1 / 5)) = true := by
        rw [Bool.and_eq_true]
        exact ⟨by simp [List.isEmpty_iff, hb.1], decide_eq_true hb.2⟩
      have hsel : selectRandomTile gs u1 u2 now =
          ((gs.markTileWarning
              ((occupiedTiles gs).getD (selIndex (occupiedTiles gs).length u2)
                (0, 0)) now).1,
            (gs.markTileWarning
              ((occupiedTiles gs).getD (selIndex (occupiedTiles gs).length u2)
                (0, 0)) now).2,
            some ((occupiedTiles gs).getD (selIndex (occupiedTiles gs).length u2)
              (0, 0))) := by
        simp only [selectRandomTile, hemp, Bool.false_eq_true, if_false, hcond,
          if_true]
      exact tail _ (mem_occupiedTiles.mp hmem).1 hsel (by rw [if_pos hb])
    · have hclen : 0 < (candidateTiles gs).length := List.length_pos.mpr hne
      have hidx := (selIndex_spec _ u2 hclen h20 h21).1
      have hmem : (candidateTiles gs).getD (selIndex (candidateTiles gs).length u2)
          (0, 0) ∈ candidateTiles gs := by
        rw [List.getD_eq_getElem _ _ hidx]
        exact List.getElem_mem _
      have hcond : (!(occupiedTiles gs).isEmpty && decide (u1 < 1 / 5)) = false := by
        rcases not_and_or.mp hb with h | h
        · have h0 : occupiedTiles gs = [] := not_not.mp h
          simp [h0]
        · rw [decide_eq_false h, Bool.and_false]
      have hsel : selectRandomTile gs u1 u2 now =
          ((gs.markTileWarning
              ((candidateTiles gs).getD (selIndex (candidateTiles gs).length u2)
                (0, 0)) now).1,
            (gs.markTileWarning
              ((candidateTiles gs).getD (selIndex (candidateTiles gs).length u2)
                (0, 0)) now).2,
            some ((candidateTiles gs).getD (selIndex (candidateTiles gs).length u2)
              (0, 0))) := by
        simp only [selectRandomTile, hemp, Bool.false_eq_true, if_false, hcond]
      exact tail _ hmem hsel (by rw [if_neg hb])

/-- An empty board for the C6 witness. -/
def c6EmptyState : GameState where
  board := []
  players := []
  alivePlayers := []
  matchPhase := MatchPhase.InProgress
  gameStartTime := 0
  centerX := 0
  centerY := 0

/-- Witness for C6: with no candidates the cycle is a silent no-op. -/
theorem selectRandomTile_spec_witness :
    selectRandomTile c6EmptyState (1 / 2) (1 / 3) 0 = (c6EmptyState, [], none) :=
  (selectRandomTile_spec c6EmptyState (1 / 2) (1 / 3) 0 List.nodup_nil (by norm_num)
    (by norm_num)).2.2.1 rfl

end SingleCell
